import Mathlib

/-!
Verification of the openclaw content-moderation plugin (src/index.js) against
its natural-language specification.  The JavaScript source is shallowly
embedded: every function below mirrors one function of src/index.js, with
machine strings represented as Lean strings or lists of characters, and the
dynamic configuration object represented by the structure Config (for
well-formed configurations) and by the document type YVal (for the persisted
YAML-like layer).  All definitions are executable so that concrete runs can be
checked with decide or rfl.
-/

/-! ### Character and string helpers (JS primitives used by index.js) -/

/-- Character-wise lowercasing; models the JS String.prototype.toLowerCase
call of index.js on the ASCII fragment (Char.toLower lowers exactly the
ASCII uppercase letters). -/
def lcChars (s : String) : List Char :=
  s.data.map Char.toLower

/-- Boolean test that the list n is an initial segment of h; used to model
substring search below. -/
def startsWithL : List Char → List Char → Bool
  | [], _ => true
  | _ :: _, [] => false
  | a :: as, b :: bs => a = b && startsWithL as bs

/-- Boolean substring test: substrB n h is true when n occurs contiguously
inside h.  Models JS String.prototype.includes as used by checkKeywords. -/
def substrB : List Char → List Char → Bool
  | n, [] => n.isEmpty
  | n, c :: t => startsWithL n (c :: t) || substrB n t

/-- The case-insensitive occurrence test of checkKeywords (src/index.js line
41): text.toLowerCase().includes(k.toLowerCase()). -/
def occursCI (k text : String) : Bool :=
  substrB (lcChars k) (lcChars text)

/-- Spec-level statement of case-insensitive occurrence: the lowercased
keyword is a contiguous substring (infix) of the lowercased text. -/
def occursSpec (k text : String) : Prop :=
  lcChars k <:+: lcChars text

instance (k text : String) : Decidable (occursSpec k text) := by
  unfold occursSpec
  infer_instance

/-! ### Data model: Stats, Config (section 3 of the spec) -/

/-- The stats counters of the configuration (src/index.js line 25). -/
structure Stats where
  totalChecks : Nat
  blocked : Nat
deriving Repr, DecidableEq

/-- A well-formed configuration, i.e. the recognized fields of the persisted
document (src/index.js line 25 lists them with their defaults). -/
structure Config where
  enabled : Bool
  mode : String
  keywords : List String
  whitelist : List String
  stats : Stats
deriving Repr, DecidableEq

/-- The default configuration returned by loadConfig when no file exists
(src/index.js line 25). -/
def defaultConfig : Config :=
  { enabled := true, mode := "both", keywords := [], whitelist := [],
    stats := { totalChecks := 0, blocked := 0 } }

/-- Embedding of checkKeywords (src/index.js lines 38-44).  The source guard
is if (!config.enabled || !config.keywords) return null; a present keywords
array is always truthy in JS, so on a well-formed Config only the enabled
flag decides that guard.  The loop returns the first keyword whose lowercased
form occurs in the lowercased text. -/
def checkKeywords (text : String) (c : Config) : Option String :=
  if !c.enabled then none
  else c.keywords.find? (fun k => occursCI k text)

/-! ### Helper lemmas about the substring test and find? -/

theorem startsWithL_iff (n h : List Char) :
    startsWithL n h = true ↔ n <+: h := by
  induction n generalizing h with
  | nil => simp [startsWithL]
  | cons a as ih =>
    cases h with
    | nil => simp [startsWithL]
    | cons b bs =>
      simp only [startsWithL, Bool.and_eq_true, decide_eq_true_eq, ih]
      constructor
      · rintro ⟨rfl, t, ht⟩
        exact ⟨t, by rw [List.cons_append, ht]⟩
      · rintro ⟨t, ht⟩
        injection ht with h1 h2
        exact ⟨h1, ⟨t, h2⟩⟩

theorem substrB_iff (n h : List Char) :
    substrB n h = true ↔ n <:+: h := by
  induction h with
  | nil =>
    simp only [substrB, List.isEmpty_iff]
    constructor
    · rintro rfl; exact List.infix_rfl
    · intro hinf; exact List.eq_nil_of_infix_nil hinf
  | cons c t ih =>
    simp only [substrB, Bool.or_eq_true, startsWithL_iff, ih]
    constructor
    · rintro (hp | hi)
      · exact hp.isInfix
      · exact hi.trans (List.suffix_cons c t).isInfix
    · intro hinf
      rcases List.infix_cons_iff.mp hinf with hp | hi
      · exact Or.inl hp
      · exact Or.inr hi

theorem occursCI_iff_occursSpec (k text : String) :
    occursCI k text = true ↔ occursSpec k text :=
  substrB_iff (lcChars k) (lcChars text)

/-- First-match characterization of List.find?: the result is some a exactly
when the list splits as l1 ++ a :: l2 with p a true and p false on all of l1. -/
theorem find?_eq_some_iff_first {α : Type} (p : α → Bool) (l : List α) (a : α) :
    l.find? p = some a ↔
      ∃ l₁ l₂, l = l₁ ++ a :: l₂ ∧ p a = true ∧ ∀ x ∈ l₁, p x = false := by
  induction l with
  | nil => simp
  | cons b t ih =>
    by_cases hb : p b = true
    · rw [List.find?_cons_of_pos _ hb]
      constructor
      · intro hsome
        injection hsome with hba
        subst hba
        exact ⟨[], t, rfl, hb, by simp⟩
      · rintro ⟨l₁, l₂, heq, hpa, hfe⟩
        cases l₁ with
        | nil =>
          injection heq with h1 _
          rw [h1]
        | cons x l₁ =>
          injection heq with h1 _
          subst h1
          have hfalse := hfe b (by simp)
          rw [hfalse] at hb
          cases hb
    · have hb' : p b = false := by
        cases hpb : p b
        · rfl
        · exact absurd hpb hb
      rw [List.find?_cons_of_neg _ hb, ih]
      constructor
      · rintro ⟨l₁, l₂, heq, hpa, hfe⟩
        refine ⟨b :: l₁, l₂, by rw [heq]; rfl, hpa, ?_⟩
        intro x hx
        rcases List.mem_cons.mp hx with hxb | hxm
        · subst hxb; exact hb'
        · exact hfe x hxm
      · rintro ⟨l₁, l₂, heq, hpa, hfe⟩
        cases l₁ with
        | nil =>
          injection heq with h1 _
          subst h1
          rw [hpa] at hb'
          cases hb'
        | cons x l₁ =>
          injection heq with h1 h2
          subst h1
          exact ⟨l₁, l₂, h2, hpa, fun y hy => hfe y (by simp [hy])⟩

/-! ### Shared concrete inputs for witnesses and counterexamples -/

/-- A configuration with the single keyword spam, everything else default. -/
def cfgSpam : Config :=
  { enabled := true, mode := "both", keywords := ["spam"], whitelist := [],
    stats := { totalChecks := 0, blocked := 0 } }

/-- Same as cfgSpam but with filtering disabled. -/
def cfgSpamOff : Config :=
  { cfgSpam with enabled := false }

/-- A configuration whose keyword list contains the empty string. -/
def cfgEmptyKw : Config :=
  { enabled := true, mode := "both", keywords := [""], whitelist := [],
    stats := { totalChecks := 0, blocked := 0 } }

/-! ### Claim C2: first-match semantics of the Matcher -/

/-- C2: for every text t and keyword list K (carried by an enabled
configuration), checkKeywords returns none exactly when no keyword of K
occurs case-insensitively as a substring of t, and it returns some k exactly
when k is the first element of K, in list order, whose lowercased form is a
substring of the lowercased t. -/
theorem claim_C2_matcher_first_match (t : String) (c : Config)
    (hen : c.enabled = true) :
    (checkKeywords t c = none ↔ ∀ k ∈ c.keywords, ¬ occursSpec k t) ∧
    (∀ k, checkKeywords t c = some k ↔
      ∃ K₁ K₂, c.keywords = K₁ ++ k :: K₂ ∧ occursSpec k t ∧
        ∀ x ∈ K₁, ¬ occursSpec x t) := by
  have hck : checkKeywords t c = c.keywords.find? (fun k => occursCI k t) := by
    simp [checkKeywords, hen]
  constructor
  · rw [hck, List.find?_eq_none]
    constructor
    · intro h k hk hocc
      exact h k hk ((occursCI_iff_occursSpec k t).mpr hocc)
    · intro h k hk hocc
      exact h k hk ((occursCI_iff_occursSpec k t).mp hocc)
  · intro k
    rw [hck, find?_eq_some_iff_first]
    constructor
    · rintro ⟨K₁, K₂, heq, hpa, hfe⟩
      refine ⟨K₁, K₂, heq, (occursCI_iff_occursSpec k t).mp hpa, ?_⟩
      intro x hx hocc
      have := hfe x hx
      rw [(occursCI_iff_occursSpec x t).mpr hocc] at this
      cases this
    · rintro ⟨K₁, K₂, heq, hpa, hfe⟩
      refine ⟨K₁, K₂, heq, (occursCI_iff_occursSpec k t).mpr hpa, ?_⟩
      intro x hx
      cases hocc : occursCI x t
      · rfl
      · exact absurd ((occursCI_iff_occursSpec x t).mp hocc) (hfe x hx)

/-- Witness for C2 at a concrete input: on the text buy spam now with keyword
list containing spam, the matcher result some spam is characterized as the
first match. -/
theorem claim_C2_witness :
    ∃ K₁ K₂, cfgSpam.keywords = K₁ ++ "spam" :: K₂ ∧ occursSpec "spam" "buy spam now" ∧
      ∀ x ∈ K₁, ¬ occursSpec x "buy spam now" :=
  ((claim_C2_matcher_first_match "buy spam now" cfgSpam rfl).2 "spam").mp (by decide)

/-! ### Claim C7: empty keyword list and empty text -/

/-- C7 counterexample: with keyword list containing the empty string, the
matcher on the empty text returns some empty keyword, not none, because the
empty string is a substring of every string under includes. -/
theorem claim_C7_counterexample :
    checkKeywords "" cfgEmptyKw = some "" ∧ checkKeywords "" cfgEmptyKw ≠ none := by
  constructor
  · decide
  · decide

/-- C7 amended: an empty keyword list always yields none; an empty text
yields none provided no keyword is itself the empty string (the empty keyword
matches every text, including the empty one). -/
theorem claim_C7_amended (t : String) (c : Config) :
    (c.keywords = [] → checkKeywords t c = none) ∧
    ((∀ k ∈ c.keywords, k ≠ "") → checkKeywords "" c = none) := by
  constructor
  · intro hk
    simp [checkKeywords, hk]
  · intro hk
    unfold checkKeywords
    cases hen : c.enabled
    · simp
    · simp only [Bool.not_true, Bool.false_eq_true, if_false]
      rw [List.find?_eq_none]
      intro k hkmem
      have hkne : k ≠ "" := hk k hkmem
      intro hocc
      have hinf : lcChars k <:+: lcChars "" := (occursCI_iff_occursSpec k "").mp hocc
      have hnil : lcChars k = [] := List.eq_nil_of_infix_nil (by simpa [lcChars] using hinf)
      have : k.data = [] := by
        have := congrArg List.length hnil
        simpa [lcChars] using List.length_eq_zero.mp (by simpa [lcChars] using this)
      exact hkne (by cases k; simp_all)

/-- Witness for C7 amended at concrete inputs: defaultConfig has an empty
keyword list, and cfgSpam has only nonempty keywords. -/
theorem claim_C7_witness :
    checkKeywords "anything" defaultConfig = none ∧ checkKeywords "" cfgSpam = none :=
  ⟨(claim_C7_amended "anything" defaultConfig).1 rfl,
   (claim_C7_amended "x" cfgSpam).2 (by decide)⟩

/-! ### Whitelist evaluator (src/index.js lines 46-52)

The source compiles each whitelist pattern p to a regular expression by
escaping every regex metacharacter except the star, turning each star into
dot-star, anchoring at both ends, and testing the session key against it.
After that compilation the pattern language is: every non-star character
matches exactly itself, and a star matches any finite run of characters each
of which the JS regex dot accepts.  Without the dotAll flag the JS dot does
not match the line terminators LF, CR, U+2028, U+2029. -/

/-- Which characters the JS regex dot accepts (no dotAll flag): everything
except the four line terminators. -/
def jsDotMatches (c : Char) : Bool :=
  !(c = '\n' || c = '\r' || c = '\u2028' || c = '\u2029')

/-- Fuel-driven matcher for the compiled whitelist pattern: star matches any
run of dot-accepted characters, every other pattern character matches itself,
and the whole session key must be consumed (both anchors).  The fuel only
bounds the recursion; globMatch below supplies enough fuel. -/
def globMatchF : Nat → List Char → List Char → Bool
  | 0, _, _ => false
  | _ + 1, [], s => s.isEmpty
  | f + 1, p :: ps, s =>
    if p = '*' then
      globMatchF f ps s ||
        (match s with
         | [] => false
         | c :: cs => jsDotMatches c && globMatchF f (p :: ps) cs)
    else
      match s with
      | [] => false
      | c :: cs => (p = c) && globMatchF f ps cs

/-- Anchored match of one compiled whitelist pattern against a session key. -/
def globMatch (p s : List Char) : Bool :=
  globMatchF (p.length + s.length + 1) p s

/-- Embedding of isWhitelisted (src/index.js lines 46-52): true when some
whitelist pattern matches the entire session key.  The source returns on the
first matching pattern; as a boolean result that is List.any. -/
def isWhitelisted (sessionKey : String) (c : Config) : Bool :=
  c.whitelist.any (fun p => globMatch p.data sessionKey.data)

/-- Declarative semantics of the compiled pattern language: GlobMatches p s
holds when pattern p matches exactly the whole string s, a star consuming any
run of characters accepted by the JS regex dot and every other character
matching only itself. -/
inductive GlobMatches : List Char → List Char → Prop where
  | nil : GlobMatches [] []
  | lit {p s : List Char} (c : Char) :
      c ≠ '*' → GlobMatches p s → GlobMatches (c :: p) (c :: s)
  | starEmpty {p : List Char} {s : List Char} :
      GlobMatches p s → GlobMatches ('*' :: p) s
  | starCons {p s : List Char} (c : Char) :
      jsDotMatches c = true → GlobMatches ('*' :: p) s →
      GlobMatches ('*' :: p) (c :: s)

theorem globMatchF_iff (f : Nat) :
    ∀ p s : List Char, p.length + s.length < f →
      (globMatchF f p s = true ↔ GlobMatches p s) := by
  induction f with
  | zero => intro p s h; omega
  | succ f ih =>
    intro p s hf
    cases p with
    | nil =>
      simp only [globMatchF, List.isEmpty_iff]
      constructor
      · rintro rfl; exact GlobMatches.nil
      · intro h; cases h; rfl
    | cons p ps =>
      simp only [List.length_cons] at hf
      by_cases hp : p = '*'
      · subst hp
        cases s with
        | nil =>
          have hstep : globMatchF (f + 1) ('*' :: ps) [] = globMatchF f ps [] := by
            simp [globMatchF]
          rw [hstep]
          constructor
          · intro h
            exact GlobMatches.starEmpty ((ih ps [] (by simp; omega)).mp h)
          · intro h
            cases h with
            | starEmpty hm => exact (ih ps [] (by simp; omega)).mpr hm
        | cons c cs =>
          have hstep : globMatchF (f + 1) ('*' :: ps) (c :: cs) =
              (globMatchF f ps (c :: cs) ||
                (jsDotMatches c && globMatchF f ('*' :: ps) cs)) := by
            simp [globMatchF]
          rw [hstep, Bool.or_eq_true, Bool.and_eq_true]
          have hfe : ps.length + (c :: cs).length < f := by simp at hf ⊢; omega
          have hfc : ('*' :: ps).length + cs.length < f := by simp at hf ⊢; omega
          constructor
          · rintro (h | ⟨hd, h⟩)
            · exact GlobMatches.starEmpty ((ih ps (c :: cs) hfe).mp h)
            · exact GlobMatches.starCons c hd ((ih ('*' :: ps) cs hfc).mp h)
          · intro h
            cases h with
            | lit c hc hm => exact absurd rfl hc
            | starEmpty hm => exact Or.inl ((ih ps (c :: cs) hfe).mpr hm)
            | starCons c hc hm => exact Or.inr ⟨hc, (ih ('*' :: ps) cs hfc).mpr hm⟩
      · cases s with
        | nil =>
          have hstep : globMatchF (f + 1) (p :: ps) [] = false := by
            simp [globMatchF, hp]
          rw [hstep]
          simp only [Bool.false_eq_true, false_iff]
          intro h
          cases h with
          | starEmpty hm => exact hp rfl
        | cons c cs =>
          have hstep : globMatchF (f + 1) (p :: ps) (c :: cs) =
              (decide (p = c) && globMatchF f ps cs) := by
            simp [globMatchF, hp]
          rw [hstep, Bool.and_eq_true, decide_eq_true_eq]
          have hfe : ps.length + cs.length < f := by simp at hf ⊢; omega
          constructor
          · rintro ⟨rfl, hm⟩
            exact GlobMatches.lit p hp ((ih ps cs hfe).mp hm)
          · intro h
            cases h with
            | lit c hc hm => exact ⟨rfl, (ih ps cs hfe).mpr hm⟩
            | starEmpty hm => exact absurd rfl hp
            | starCons c hc hm => exact absurd rfl hp

theorem globMatch_iff (p s : List Char) :
    globMatch p s = true ↔ GlobMatches p s :=
  globMatchF_iff (p.length + s.length + 1) p s (by omega)

/-- Modelled from the spec: the whitelist matcher as the claim words it, with
the star expanded to any run of characters whatsoever (no line-terminator
restriction).  Used only to compare the claim text with the source. -/
def specGlobMatchF : Nat → List Char → List Char → Bool
  | 0, _, _ => false
  | _ + 1, [], s => s.isEmpty
  | f + 1, p :: ps, s =>
    if p = '*' then
      specGlobMatchF f ps s ||
        (match s with
         | [] => false
         | _ :: cs => specGlobMatchF f (p :: ps) cs)
    else
      match s with
      | [] => false
      | c :: cs => (p = c) && specGlobMatchF f ps cs

/-- Modelled from the spec: anchored whole-key match with star meaning any
characters. -/
def specGlobMatch (p s : List Char) : Bool :=
  specGlobMatchF (p.length + s.length + 1) p s

/-! ### Claim C3: whitelist pattern semantics -/

/-- A configuration whose whitelist holds the single pattern a star b. -/
def cfgNl : Config :=
  { enabled := true, mode := "both", keywords := [], whitelist := ["a*b"],
    stats := { totalChecks := 0, blocked := 0 } }

/-- A configuration whitelisting session keys that start with admin dash. -/
def cfgAdmin : Config :=
  { enabled := true, mode := "both", keywords := ["spam"],
    whitelist := ["admin-*"], stats := { totalChecks := 0, blocked := 0 } }

/-- C3 counterexample: the claim says the star matches any run of characters,
but the JS regex dot excludes line terminators, so the pattern a star b does
not whitelist the session key containing a newline between a and b, although
the claim as worded says it must. -/
theorem claim_C3_counterexample :
    isWhitelisted "a\nb" cfgNl = false ∧
    specGlobMatch "a*b".data "a\nb".data = true := by
  constructor
  · decide
  · decide

/-- C3 amended: isWhitelisted s c is true iff some pattern of the whitelist,
with every regex metacharacter literal except the star, the star matching any
run of non-line-terminator characters, and the pattern anchored at both ends,
matches the entire session key; it is false when the whitelist is empty. -/
theorem claim_C3_whitelist_semantics (s : String) (c : Config) :
    (isWhitelisted s c = true ↔ ∃ p ∈ c.whitelist, GlobMatches p.data s.data) ∧
    (c.whitelist = [] → isWhitelisted s c = false) := by
  constructor
  · rw [isWhitelisted, List.any_eq_true]
    constructor
    · rintro ⟨p, hp, hm⟩
      exact ⟨p, hp, (globMatch_iff p.data s.data).mp hm⟩
    · rintro ⟨p, hp, hm⟩
      exact ⟨p, hp, (globMatch_iff p.data s.data).mpr hm⟩
  · intro hw
    simp [isWhitelisted, hw]

/-- Witness for C3 at concrete inputs: the pattern admin dash star matches the
session key admin-1, and the empty whitelist of cfgSpam exempts nothing. -/
theorem claim_C3_witness :
    (∃ p ∈ cfgAdmin.whitelist, GlobMatches p.data "admin-1".data) ∧
    isWhitelisted "admin-1" cfgSpam = false :=
  ⟨(claim_C3_whitelist_semantics "admin-1" cfgAdmin).1.mp (by decide),
   (claim_C3_whitelist_semantics "admin-1" cfgSpam).2 rfl⟩

/-! ### The persisted document layer (src/index.js lines 114-145)

The configuration file is a hand-rolled YAML-like format.  parseYAML reads it
line by line, maintaining a stack of open nested mappings selected by
indentation; a line with no text after the colon opens a nested mapping, any
other line assigns a scalar parsed by the quoted-string, true, false, Number
cascade.  stringifyYAML writes nested objects with two-space indentation,
arrays as dash items, and quotes exactly the string scalars.  Note that the
parser has no rule for dash items, which is what breaks the round trip. -/

/-- JS values as they appear in a configuration document: scalars, arrays and
nested objects. -/
inductive YVal where
  | str : String → YVal
  | bool : Bool → YVal
  | num : Int → YVal
  | arr : List YVal → YVal
  | map : List (String × YVal) → YVal
deriving Repr

/-- A JS object as an insertion-ordered list of key/value entries, the order
Object.entries exposes. -/
abbrev YDoc := List (String × YVal)

/-- Split a character list at every occurrence of sep, keeping empty pieces,
as JS String.prototype.split with a single-character separator does. -/
def splitChar (sep : Char) : List Char → List (List Char)
  | [] => [[]]
  | c :: cs =>
    let r := splitChar sep cs
    if c = sep then [] :: r
    else
      match r with
      | [] => [[c]]
      | h :: t => (c :: h) :: t

/-- JS String.prototype.trim on the whitespace fragment shared by JS and
Char.isWhitespace (space, tab, CR, LF): drop whitespace from both ends. -/
def trimChars (l : List Char) : List Char :=
  ((l.dropWhile Char.isWhitespace).reverse.dropWhile Char.isWhitespace).reverse

/-- Whether a character list starts with the character c. -/
def headIs (c : Char) : List Char → Bool
  | [] => false
  | x :: _ => x = c

/-- Whether a character list ends with the character c. -/
def lastIs (c : Char) (l : List Char) : Bool :=
  headIs c l.reverse

/-- Value of a list of decimal digits. -/
def digitsVal (l : List Char) : Nat :=
  l.foldl (fun a c => a * 10 + (c.toNat - 48)) 0

/-- Modelled JS Number() conversion as used by the isNaN test of parseYAML,
on the fragment of optionally negated decimal integer literals; the
configuration documents this plugin itself writes contain only such numbers
(the stats counters). -/
def jsNumber? (v : List Char) : Option Int :=
  match v with
  | '-' :: ds =>
    if !ds.isEmpty && ds.all Char.isDigit then some (-(digitsVal ds : Int)) else none
  | ds =>
    if !ds.isEmpty && ds.all Char.isDigit then some (digitsVal ds) else none

/-- The single-quote character, U+0027. -/
def singleQuote : Char :=
  Char.ofNat 39

/-- The scalar cascade of parseYAML (src/index.js lines 126-131): strip one
pair of matching double or single quotes, else the literals true and false,
else a number, else the raw string. -/
def parseScalar (v : List Char) : YVal :=
  if (headIs '"' v && lastIs '"' v) || (headIs singleQuote v && lastIs singleQuote v) then
    .str (String.mk ((v.drop 1).dropLast))
  else if v = "true".data then .bool true
  else if v = "false".data then .bool false
  else
    match jsNumber? v with
    | some n => .num n
    | none => .str (String.mk v)

/-- One significant line of the document: its indentation (index of the first
non-whitespace character), the text before the first colon, and the trimmed
text after it. -/
structure PLine where
  ind : Nat
  key : String
  val : List Char
deriving Repr, DecidableEq

/-- Line preprocessing of parseYAML: split the content on newlines, drop
blank and comment lines, and split each remaining line at the first colon
(the part after it keeps any further colons). -/
def toPLines (content : String) : List PLine :=
  (splitChar '\n' content.data).filterMap fun l =>
    let t := trimChars l
    if t.isEmpty || headIs '#' t then none
    else
      let parts := splitChar ':' t
      some { ind := (l.takeWhile Char.isWhitespace).length,
             key := String.mk (trimChars (parts.headD [])),
             val := trimChars (List.intercalate [':'] parts.tail) }

/-- Remove every entry with the given key. -/
def eraseKey (k : String) : YDoc → YDoc
  | [] => []
  | (k2, v) :: rest => if k2 = k then eraseKey k rest else (k2, v) :: eraseKey k rest

/-- JS property assignment semantics when the entries produced by the
following lines are already known: a key keeps its first position, and a
later assignment to the same key supersedes the value v being assigned now. -/
def addEntry (k : String) (v : YVal) (later : YDoc) : YDoc :=
  match later.lookup k with
  | some v2 => (k, v2) :: eraseKey k later
  | none => (k, v) :: later

/-- Recursive form of the indentation-stack loop of parseYAML: consume lines
strictly more indented than minInd into one mapping, opening a nested mapping
whenever a line has no value; stop at the first line with indentation at most
minInd and hand the rest back.  The fuel is the number of remaining lines: it
never runs out because every call receives at least as much fuel as lines,
every nested call drops one fuel unit and at least one line, and the returned
rest is never longer than the input. -/
def parseLines : Nat → List PLine → Int → YDoc × List PLine
  | 0, ls, _ => ([], ls)
  | _ + 1, [], _ => ([], [])
  | fuel + 1, l :: ls, minInd =>
    if (l.ind : Int) ≤ minInd then ([], l :: ls)
    else if l.val.isEmpty then
      let res := parseLines fuel ls (l.ind : Int)
      let res2 := parseLines fuel res.2 minInd
      (addEntry l.key (.map res.1) res2.1, res2.2)
    else
      let res2 := parseLines fuel ls minInd
      (addEntry l.key (parseScalar l.val) res2.1, res2.2)

/-- Embedding of parseYAML (src/index.js lines 114-135): the root mapping
collects every line, since every indentation is nonnegative. -/
def parseYAML (content : String) : YDoc :=
  (parseLines (toPLines content).length (toPLines content) (-1)).1

/-- Decimal digits of n, most significant first; the fuel only bounds the
recursion and n + 1 always suffices. -/
def natChars : Nat → Nat → List Char
  | 0, _ => []
  | f + 1, n => if n < 10 then [Nat.digitChar n] else natChars f (n / 10) ++ [Nat.digitChar (n % 10)]

/-- Decimal rendering of an integer, as JS renders the stats counters. -/
def intStr (i : Int) : String :=
  match i with
  | .ofNat n => String.mk (natChars (n + 1) n)
  | .negSucc m => String.mk ('-' :: natChars (m + 2) (m + 1))

/-- JS template-literal conversion of an array item as stringifyYAML
interpolates it.  A nested nonempty array would render as its elements
joined by commas in JS; the documents this plugin writes never nest arrays,
and the other cases are exact. -/
def jsTemplateScalar : YVal → String
  | .str s => s
  | .bool b => cond b "true" "false"
  | .num n => intStr n
  | .arr _ => ""
  | .map _ => "[object Object]"

/-- The two-space indentation prefix of stringifyYAML. -/
def padChars (ind : Nat) : String :=
  String.mk (List.flatten (List.replicate ind [' ', ' ']))

/-- One level of stringifyYAML (src/index.js lines 137-145), with the
recursion into nested mappings abstracted as recur so that the level itself
is plain structural recursion over the entry list: nested objects recurse
one indentation deeper, arrays render as dash items at the current padding,
strings are quoted, other scalars interpolate raw. -/
def stringifyLevel (recur : YDoc → Nat → String) : YDoc → Nat → String
  | [], _ => ""
  | (k, v) :: rest, ind =>
    (match v with
     | .map m => padChars ind ++ k ++ ":\n" ++ recur m (ind + 1)
     | .arr items =>
       padChars ind ++ k ++ ":\n" ++
         String.join (items.map fun i => padChars ind ++ "  - " ++ jsTemplateScalar i ++ "\n")
     | .str s => padChars ind ++ k ++ ": \"" ++ s ++ "\"\n"
     | .bool b => padChars ind ++ k ++ ": " ++ cond b "true" "false" ++ "\n"
     | .num n => padChars ind ++ k ++ ": " ++ intStr n ++ "\n")
    ++ stringifyLevel recur rest ind

/-- Embedding of stringifyYAML: the first argument only bounds the nesting
depth of mappings, which the source recursion does not need to bound; every
use below passes a bound strictly larger than the depth of the document, so
the bound is inert (stringifyYAML_docOf_fuel proves this for the documents
the plugin writes, whose only nesting is the stats mapping). -/
def stringifyYAML : Nat → YDoc → Nat → String
  | 0, _, _ => ""
  | d + 1, entries, ind => stringifyLevel (fun m i => stringifyYAML d m i) entries ind

/-- The document Object.entries sees for a well-formed configuration object,
in the field order of the default configuration literal of loadConfig. -/
def docOf (c : Config) : YDoc :=
  [("enabled", .bool c.enabled),
   ("mode", .str c.mode),
   ("keywords", .arr (c.keywords.map .str)),
   ("whitelist", .arr (c.whitelist.map .str)),
   ("stats", .map [("totalChecks", .num (c.stats.totalChecks : Int)),
                   ("blocked", .num (c.stats.blocked : Int))])]

/-- The exact file content saveConfig writes for a configuration. -/
def saveConfigText (c : Config) : String :=
  stringifyYAML 3 (docOf c) 0

/-- Any nesting bound of at least 3 yields the same rendering of a
configuration document: the bound in saveConfigText is inert. -/
theorem stringifyYAML_docOf_fuel (c : Config) (d : Nat) :
    stringifyYAML (d + 3) (docOf c) 0 = stringifyYAML 3 (docOf c) 0 := by
  simp [stringifyYAML, stringifyLevel, docOf]

/-! ### Config store (src/index.js lines 16-36) -/

/-- The possible outcomes of looking for the configuration file: absent,
present but unreadable (readFileSync throws), or readable with contents s. -/
inductive FileRead where
  | missing
  | readError
  | content (s : String)

/-- The try block of loadConfig as a fallible computation: a read error is
the thrown exception, a missing file falls through with no result, and a
readable file parses (parseYAML itself never throws). -/
def loadConfigTry : FileRead → Except Unit (Option YDoc)
  | .missing => .ok none
  | .readError => .error ()
  | .content s => .ok (some (parseYAML s))

/-- Embedding of loadConfig (src/index.js lines 16-26): catch any error,
return the parsed document when one was produced, and otherwise the default
configuration object.  Note that a parsed document is returned as-is. -/
def loadConfig (fs : FileRead) : YDoc :=
  match loadConfigTry fs with
  | .ok (some d) => d
  | .ok none => docOf defaultConfig
  | .error _ => docOf defaultConfig

/-- Outcome of the writeFileSync call, as a fallible computation driven by
whether the storage accepts the write. -/
def fsWrite (writeOk : Bool) (_content : String) : Except Unit Unit :=
  cond writeOk (.ok ()) (.error ())

/-- Embedding of saveConfig (src/index.js lines 28-36): write the serialized
configuration, return true on success and false when the write throws. -/
def saveConfig (writeOk : Bool) (c : Config) : Bool :=
  match fsWrite writeOk (saveConfigText c) with
  | .ok _ => true
  | .error _ => false

/-! ### Claim C1: the save/load round trip -/

/-- A configuration with a nonempty keyword list and nonzero counters. -/
def cfgRT : Config :=
  { enabled := true, mode := "both", keywords := ["spam"], whitelist := [],
    stats := { totalChecks := 2, blocked := 1 } }

/-- C1 evaluated at cfgRT: save writes the expected document, but loading it
back turns the keywords list into a nested mapping whose single key is the
dash line, because parseYAML has no rule for dash items; the list value
does not survive the round trip, contradicting the round-trip claim.  The
whitelist list likewise comes back as an empty mapping. -/
theorem claim_C1_roundtrip_fails :
    saveConfigText cfgRT =
      "enabled: true\nmode: \"both\"\nkeywords:\n  - spam\nwhitelist:\nstats:\n  totalChecks: 2\n  blocked: 1\n" ∧
    loadConfig (.content (saveConfigText cfgRT)) =
      [("enabled", .bool true), ("mode", .str "both"),
       ("keywords", .map [("- spam", .map [])]),
       ("whitelist", .map []),
       ("stats", .map [("totalChecks", .num 2), ("blocked", .num 1)])] ∧
    List.lookup "keywords" (loadConfig (.content (saveConfigText cfgRT))) ≠
      List.lookup "keywords" (docOf cfgRT) := by
  refine ⟨rfl, rfl, ?_⟩
  have h1 : List.lookup "keywords" (loadConfig (.content (saveConfigText cfgRT))) =
      some (.map [("- spam", .map [])]) := rfl
  have h2 : List.lookup "keywords" (docOf cfgRT) = some (.arr [.str "spam"]) := rfl
  rw [h1, h2]
  intro h
  exact YVal.noConfusion (Option.some.inj h)

/-! ### Claim C8: per-field defaults on load -/

/-- C8 counterexample: a readable file that only sets enabled parses to a
document with no keywords entry at all; loadConfig returns it unchanged, so
the missing field is not replaced by its documented default, although the
default object produced for a missing file does carry the empty keywords
list. -/
theorem claim_C8_counterexample :
    loadConfig (.content "enabled: false") = [("enabled", .bool false)] ∧
    List.lookup "keywords" (loadConfig (.content "enabled: false")) = none ∧
    List.lookup "keywords" (loadConfig .missing) = some (.arr []) :=
  ⟨rfl, rfl, rfl⟩

/-- C8 amended: loadConfig substitutes defaults only wholesale, when the file
is missing or unreadable; a document that parses is returned exactly as
parsed, with no field-by-field defaulting (missing-field tolerance lives at
the use sites instead). -/
theorem claim_C8_defaults_wholesale :
    loadConfig .missing = docOf defaultConfig ∧
    loadConfig .readError = docOf defaultConfig ∧
    ∀ s, loadConfig (.content s) = parseYAML s :=
  ⟨rfl, rfl, fun _ => rfl⟩

/-! ### Message events and the moderation decision engine
(src/index.js lines 154-180)

Each hook receives the event object and the configuration it just loaded.
The embedding returns, besides the updated in-memory configuration and event,
the decision taken, whether saveConfig was called, and whether that call
reported success; writeOk drives the storage outcome as in fsWrite. -/

/-- The two hook directions: message received (inbound) and message sending
(outbound). -/
inductive Dir where
  | inbound
  | outbound
deriving Repr, DecidableEq

/-- The event object of the host hook protocol: the fields the hooks read
(sessionKey, text, content) and the fields they may set (cancel,
cancelReason). -/
structure Event where
  sessionKey : Option String
  text : Option String
  content : Option String
  cancel : Bool
  cancelReason : Option String
deriving Repr, DecidableEq

/-- JS string disjunction a || b where a may be absent: the empty string is
falsy, so it also falls through to b. -/
def jsOrStr (a : Option String) (b : String) : String :=
  match a with
  | none => b
  | some s => if s = "" then b else s

/-- The string the received hook scans: e.text || e.content || the empty
string (src/index.js line 158). -/
def recvScan (e : Event) : String :=
  jsOrStr e.text (jsOrStr e.content "")

/-- The string the sending hook scans: e.content || e.text || the empty
string (src/index.js line 172). -/
def sendScan (e : Event) : String :=
  jsOrStr e.content (jsOrStr e.text "")

/-- The moderation outcome of one event. -/
inductive Decision where
  | allow
  | block (k : String)
deriving Repr, DecidableEq

/-- Everything one hook invocation produces: the in-memory configuration when
the handler returns, the event object (possibly cancelled), the decision,
whether saveConfig was invoked, and what it returned. -/
structure HookOut where
  config : Config
  event : Event
  decision : Decision
  saveCalled : Bool
  saveOk : Bool
deriving Repr, DecidableEq

/-- Embedding of the message received hook (src/index.js lines 154-166),
applied to the configuration c it loaded: return early (Allow, untouched
state) when disabled or in output-only mode, when the session key is
whitelisted, or when no keyword matches; on a match, bump both counters,
save, and cancel the event with the keyword reason. -/
def handleReceived (writeOk : Bool) (e : Event) (c : Config) : HookOut :=
  if c.enabled = false ∨ c.mode = "output_only" then
    { config := c, event := e, decision := .allow, saveCalled := false, saveOk := false }
  else if isWhitelisted (jsOrStr e.sessionKey "") c then
    { config := c, event := e, decision := .allow, saveCalled := false, saveOk := false }
  else
    match checkKeywords (recvScan e) c with
    | none =>
      { config := c, event := e, decision := .allow, saveCalled := false, saveOk := false }
    | some m =>
      let c2 : Config :=
        { c with stats := { totalChecks := c.stats.totalChecks + 1,
                            blocked := c.stats.blocked + 1 } }
      { config := c2,
        event := { e with cancel := true, cancelReason := some ("Keyword: " ++ m) },
        decision := .block m,
        saveCalled := true,
        saveOk := saveConfig writeOk c2 }

/-- Embedding of the message sending hook (src/index.js lines 168-180): as
handleReceived, with the input-only mode excluded and the content field
scanned first. -/
def handleSending (writeOk : Bool) (e : Event) (c : Config) : HookOut :=
  if c.enabled = false ∨ c.mode = "input_only" then
    { config := c, event := e, decision := .allow, saveCalled := false, saveOk := false }
  else if isWhitelisted (jsOrStr e.sessionKey "") c then
    { config := c, event := e, decision := .allow, saveCalled := false, saveOk := false }
  else
    match checkKeywords (sendScan e) c with
    | none =>
      { config := c, event := e, decision := .allow, saveCalled := false, saveOk := false }
    | some m =>
      let c2 : Config :=
        { c with stats := { totalChecks := c.stats.totalChecks + 1,
                            blocked := c.stats.blocked + 1 } }
      { config := c2,
        event := { e with cancel := true, cancelReason := some ("Keyword: " ++ m) },
        decision := .block m,
        saveCalled := true,
        saveOk := saveConfig writeOk c2 }

/-- Dispatch one event to the hook of its direction. -/
def handleEvent : Dir → Bool → Event → Config → HookOut
  | .inbound => handleReceived
  | .outbound => handleSending

/-- The string the hook of direction d scans in event e. -/
def scanOf : Dir → Event → String
  | .inbound => recvScan
  | .outbound => sendScan

/-- A sequence of moderation decisions, each loading the configuration the
previous one persisted (successful persistence between events): the final
configuration together with the number of Block and of Allow decisions. -/
def runEvents (writeOk : Bool) : List (Dir × Event) → Config → Config × Nat × Nat
  | [], c => (c, 0, 0)
  | (d, e) :: rest, c =>
    match (handleEvent d writeOk e c).decision with
    | .allow =>
      ((runEvents writeOk rest (handleEvent d writeOk e c).config).1,
       (runEvents writeOk rest (handleEvent d writeOk e c).config).2.1,
       (runEvents writeOk rest (handleEvent d writeOk e c).config).2.2 + 1)
    | .block _ =>
      ((runEvents writeOk rest (handleEvent d writeOk e c).config).1,
       (runEvents writeOk rest (handleEvent d writeOk e c).config).2.1 + 1,
       (runEvents writeOk rest (handleEvent d writeOk e c).config).2.2)

/-- Exhaustive case split of one hook invocation: either the decision is
Allow and nothing changes (configuration, event, no save), or it is Block m
where m is exactly what checkKeywords returned on the scanned string, both
counters are bumped by one, and the event is cancelled with the keyword
reason. -/
theorem hookStep_cases (d : Dir) (ok : Bool) (e : Event) (c : Config) :
    ((handleEvent d ok e c).decision = .allow ∧ (handleEvent d ok e c).config = c ∧
     (handleEvent d ok e c).event = e ∧ (handleEvent d ok e c).saveCalled = false) ∨
    (∃ m, (handleEvent d ok e c).decision = .block m ∧
      checkKeywords (scanOf d e) c = some m ∧
      (handleEvent d ok e c).config =
        { c with stats := { totalChecks := c.stats.totalChecks + 1,
                            blocked := c.stats.blocked + 1 } } ∧
      (handleEvent d ok e c).event =
        { e with cancel := true, cancelReason := some ("Keyword: " ++ m) } ∧
      (handleEvent d ok e c).saveCalled = true) := by
  cases d
  · by_cases h1 : c.enabled = false ∨ c.mode = "output_only"
    · exact Or.inl (by simp [handleEvent, handleReceived, h1])
    · by_cases h2 : isWhitelisted (jsOrStr e.sessionKey "") c
      · exact Or.inl (by simp [handleEvent, handleReceived, h1, h2])
      · cases hm : checkKeywords (recvScan e) c with
        | none => exact Or.inl (by simp [handleEvent, handleReceived, h1, h2, hm])
        | some m =>
          exact Or.inr ⟨m, by simp [handleEvent, handleReceived, h1, h2, hm, scanOf]⟩
  · by_cases h1 : c.enabled = false ∨ c.mode = "input_only"
    · exact Or.inl (by simp [handleEvent, handleSending, h1])
    · by_cases h2 : isWhitelisted (jsOrStr e.sessionKey "") c
      · exact Or.inl (by simp [handleEvent, handleSending, h1, h2])
      · cases hm : checkKeywords (sendScan e) c with
        | none => exact Or.inl (by simp [handleEvent, handleSending, h1, h2, hm])
        | some m =>
          exact Or.inr ⟨m, by simp [handleEvent, handleSending, h1, h2, hm, scanOf]⟩

/-! ### Concrete events -/

/-- An inbound event whose text contains the keyword spam. -/
def evSpam : Event :=
  { sessionKey := none, text := some "this is spam", content := none,
    cancel := false, cancelReason := none }

/-- An event whose text matches no keyword of cfgSpam. -/
def evClean : Event :=
  { sessionKey := none, text := some "hello", content := none,
    cancel := false, cancelReason := none }

/-- An event carrying both a text and a content field, with different
values. -/
def evBoth : Event :=
  { sessionKey := none, text := some "hello", content := some "spam inside",
    cancel := false, cancelReason := none }

/-! ### Claim C4: counter arithmetic and the stats invariant -/

/-- C4: an Allow decision leaves the stats unchanged; a Block decision bumps
totalChecks and blocked by exactly one each; over any event sequence the two
counters each grow by exactly the number of Block decisions, Block and Allow
decisions account for every event, and blocked at most totalChecks is
preserved. -/
theorem claim_C4_stats_counters :
    (∀ d ok e c, (handleEvent d ok e c).decision = .allow →
        (handleEvent d ok e c).config.stats = c.stats) ∧
    (∀ d ok e c m, (handleEvent d ok e c).decision = .block m →
        (handleEvent d ok e c).config.stats =
          { totalChecks := c.stats.totalChecks + 1, blocked := c.stats.blocked + 1 }) ∧
    (∀ ok evs c,
        (runEvents ok evs c).1.stats.totalChecks =
          c.stats.totalChecks + (runEvents ok evs c).2.1 ∧
        (runEvents ok evs c).1.stats.blocked =
          c.stats.blocked + (runEvents ok evs c).2.1 ∧
        (runEvents ok evs c).2.1 + (runEvents ok evs c).2.2 = evs.length ∧
        (c.stats.blocked ≤ c.stats.totalChecks →
          (runEvents ok evs c).1.stats.blocked ≤
            (runEvents ok evs c).1.stats.totalChecks)) := by
  have hallow : ∀ d ok e c, (handleEvent d ok e c).decision = .allow →
      (handleEvent d ok e c).config.stats = c.stats := by
    intro d ok e c hdec
    rcases hookStep_cases d ok e c with ⟨_, hcfg, _, _⟩ | ⟨m, hm, _, _, _⟩
    · rw [hcfg]
    · rw [hdec] at hm; cases hm
  have hblock : ∀ d ok e c m, (handleEvent d ok e c).decision = .block m →
      (handleEvent d ok e c).config.stats =
        { totalChecks := c.stats.totalChecks + 1, blocked := c.stats.blocked + 1 } := by
    intro d ok e c m hdec
    rcases hookStep_cases d ok e c with ⟨hd, _, _, _⟩ | ⟨m2, hm2, _, hcfg, _⟩
    · rw [hdec] at hd; cases hd
    · rw [hcfg]
  refine ⟨hallow, hblock, ?_⟩
  intro ok evs
  induction evs with
  | nil => intro c; simp [runEvents]
  | cons de rest ih =>
    intro c
    obtain ⟨d, e⟩ := de
    cases hdec : (handleEvent d ok e c).decision with
    | allow =>
      have hst := hallow d ok e c hdec
      have ihc := ih (handleEvent d ok e c).config
      simp only [runEvents, hdec, List.length_cons]
      rw [hst] at ihc
      exact ⟨ihc.1, ihc.2.1, by omega, ihc.2.2.2⟩
    | block m =>
      have hst := hblock d ok e c m hdec
      have ihc := ih (handleEvent d ok e c).config
      simp only [runEvents, hdec, List.length_cons]
      rw [hst] at ihc
      refine ⟨by rw [ihc.1]; simp; omega, by rw [ihc.2.1]; simp; omega, by omega, ?_⟩
      intro hinv
      exact ihc.2.2.2 (by simp; omega)

/-- Witness for C4 at concrete inputs: a clean inbound event leaves the stats
of cfgSpam unchanged, and one blocking run preserves the stats invariant. -/
theorem claim_C4_witness :
    (handleEvent .inbound true evClean cfgSpam).config.stats = cfgSpam.stats ∧
    (runEvents true [(.inbound, evSpam)] cfgSpam).1.stats.blocked ≤
      (runEvents true [(.inbound, evSpam)] cfgSpam).1.stats.totalChecks :=
  ⟨claim_C4_stats_counters.1 .inbound true evClean cfgSpam (by decide),
   (claim_C4_stats_counters.2.2 true [(.inbound, evSpam)] cfgSpam).2.2.2 (by decide)⟩

/-! ### Claim C6: disabled or direction-excluded events pass untouched -/

/-- C6: when filtering is disabled, or the event is inbound in output-only
mode, or outbound in input-only mode, the hook returns Allow with no side
effects at all: the configuration is unchanged, saveConfig is not called, and
the event object is not cancelled, regardless of any keyword match. -/
theorem claim_C6_gate_allows_without_effects (d : Dir) (ok : Bool) (e : Event)
    (c : Config)
    (h : c.enabled = false ∨ (d = .inbound ∧ c.mode = "output_only") ∨
         (d = .outbound ∧ c.mode = "input_only")) :
    handleEvent d ok e c =
      { config := c, event := e, decision := .allow,
        saveCalled := false, saveOk := false } := by
  cases d with
  | inbound =>
    rcases h with h | ⟨_, h⟩ | ⟨hd, _⟩
    · simp [handleEvent, handleReceived, h]
    · simp [handleEvent, handleReceived, h]
    · cases hd
  | outbound =>
    rcases h with h | ⟨hd, _⟩ | ⟨_, h⟩
    · simp [handleEvent, handleSending, h]
    · cases hd
    · simp [handleEvent, handleSending, h]

/-- Witness for C6 at concrete inputs: the disabled configuration lets the
spam event through untouched. -/
theorem claim_C6_witness :
    handleEvent .inbound true evSpam cfgSpamOff =
      { config := cfgSpamOff, event := evSpam, decision := .allow,
        saveCalled := false, saveOk := false } :=
  claim_C6_gate_allows_without_effects .inbound true evSpam cfgSpamOff (Or.inl rfl)

/-! ### The admin test endpoint (src/index.js lines 68-78) -/

/-- JS truthiness of the matcher result: null and the empty string are falsy. -/
def jsTruthyStr : Option String → Bool
  | none => false
  | some s => if s = "" then false else true

/-- The response of the admin preview endpoint. -/
structure TestResult where
  passed : Bool
  matched : Option String
deriving Repr, DecidableEq

/-- Embedding of the api test route (src/index.js lines 68-78): run
checkKeywords on the posted text (or the empty string) against the loaded
configuration and answer passed as the negated truthiness of the match,
echoing the match or null.  The route calls no saveConfig, so the stats are
untouched by construction. -/
def testText (text : Option String) (c : Config) : TestResult :=
  { passed := !jsTruthyStr (checkKeywords (jsOrStr text "") c),
    matched := if jsTruthyStr (checkKeywords (jsOrStr text "") c)
               then checkKeywords (jsOrStr text "") c else none }

/-- The matcher reads only the enabled flag and the keyword list of the
configuration. -/
theorem checkKeywords_congr (t : String) (c₁ c₂ : Config)
    (h1 : c₁.enabled = c₂.enabled) (h2 : c₁.keywords = c₂.keywords) :
    checkKeywords t c₁ = checkKeywords t c₂ := by
  unfold checkKeywords
  rw [h1, h2]

/-! ### Claim C5: what the admin preview actually depends on -/

/-- C5 counterexample: the claim says testText is independent of the enabled
flag and must report the spam match; but checkKeywords short-circuits on a
disabled configuration, so with filtering disabled testText reports passed
with no match, and two configurations differing only in enabled disagree. -/
theorem claim_C5_counterexample :
    cfgSpamOff.keywords = ["spam"] ∧ cfgSpamOff.enabled = false ∧
    testText (some "buy spam now") cfgSpamOff = { passed := true, matched := none } ∧
    testText (some "buy spam now") cfgSpam ≠ testText (some "buy spam now") cfgSpamOff := by
  refine ⟨rfl, rfl, rfl, ?_⟩
  decide

/-- C5 amended: testText depends only on the enabled flag and the keyword
list (so it does ignore the whitelist, the mode and the stats, and it mutates
nothing); when filtering is disabled it always answers passed with no match;
with filtering enabled and keyword spam, the text buy spam now fails with
match spam. -/
theorem claim_C5_preview_semantics :
    (∀ text c₁ c₂, c₁.enabled = c₂.enabled → c₁.keywords = c₂.keywords →
        testText text c₁ = testText text c₂) ∧
    (∀ text c, c.enabled = false →
        testText text c = { passed := true, matched := none }) ∧
    testText (some "buy spam now") cfgSpam = { passed := false, matched := some "spam" } := by
  refine ⟨?_, ?_, by decide⟩
  · intro text c₁ c₂ h1 h2
    unfold testText
    rw [checkKeywords_congr (jsOrStr text "") c₁ c₂ h1 h2]
  · intro text c h
    have hck : checkKeywords (jsOrStr text "") c = none := by
      simp [checkKeywords, h]
    simp [testText, hck, jsTruthyStr]

/-- Witness for C5 at concrete inputs: a configuration agreeing with cfgSpam
on enabled and keywords but differing in mode, whitelist and stats gets the
same preview answer, and a disabled configuration always passes. -/
def cfgNoisy : Config :=
  { enabled := true, mode := "input_only", keywords := ["spam"],
    whitelist := ["admin-*"], stats := { totalChecks := 7, blocked := 3 } }

theorem claim_C5_witness :
    testText (some "buy spam now") cfgNoisy = testText (some "buy spam now") cfgSpam ∧
    testText (some "buy spam now") cfgSpamOff = { passed := true, matched := none } :=
  ⟨claim_C5_preview_semantics.1 (some "buy spam now") cfgNoisy cfgSpam rfl rfl,
   claim_C5_preview_semantics.2.1 (some "buy spam now") cfgSpamOff rfl⟩

/-! ### Claim C9: storage failures never affect the decision -/

/-- C9: loadConfig turns every thrown read error into the default
configuration instead of propagating it; saveConfig reports failure as false
instead of throwing; and the hook outcome visible to the host, that is the
decision, the event object and the in-memory configuration, is identical
whether the persistence write succeeds or fails. -/
theorem claim_C9_fail_open :
    (∀ fs, loadConfigTry fs = .error () → loadConfig fs = docOf defaultConfig) ∧
    (∀ c, saveConfig false c = false) ∧
    (∀ c, saveConfig true c = true) ∧
    (∀ d e c, (handleEvent d false e c).decision = (handleEvent d true e c).decision ∧
              (handleEvent d false e c).event = (handleEvent d true e c).event ∧
              (handleEvent d false e c).config = (handleEvent d true e c).config) := by
  refine ⟨?_, fun c => rfl, fun c => rfl, ?_⟩
  · intro fs h
    unfold loadConfig
    rw [h]
  · intro d e c
    cases d with
    | inbound =>
      by_cases h1 : c.enabled = false ∨ c.mode = "output_only"
      · simp [handleEvent, handleReceived, h1]
      · by_cases h2 : isWhitelisted (jsOrStr e.sessionKey "") c
        · simp [handleEvent, handleReceived, h1, h2]
        · cases hm : checkKeywords (recvScan e) c <;>
            simp [handleEvent, handleReceived, h1, h2, hm]
    | outbound =>
      by_cases h1 : c.enabled = false ∨ c.mode = "input_only"
      · simp [handleEvent, handleSending, h1]
      · by_cases h2 : isWhitelisted (jsOrStr e.sessionKey "") c
        · simp [handleEvent, handleSending, h1, h2]
        · cases hm : checkKeywords (sendScan e) c <;>
            simp [handleEvent, handleSending, h1, h2, hm]

/-- Witness for C9 at concrete inputs: an unreadable file loads as the
default configuration, and the spam event is blocked identically whether the
stats write succeeds or fails. -/
theorem claim_C9_witness :
    loadConfig .readError = docOf defaultConfig ∧
    (handleEvent .inbound false evSpam cfgSpam).decision =
      (handleEvent .inbound true evSpam cfgSpam).decision :=
  ⟨claim_C9_fail_open.1 .readError rfl,
   (claim_C9_fail_open.2.2.2 .inbound evSpam cfgSpam).1⟩

/-! ### Claim C10: which string each direction scans -/

/-- C10: the received hook scans the text field and falls back to content
only when text is absent or empty; the sending hook scans the content field
and falls back to text likewise; on an event carrying distinct nonempty text
and content the two directions scan different strings; and a hook blocks
with keyword m exactly when checkKeywords on its scanned string returns m. -/
theorem claim_C10_scan_fields :
    (∀ e t, e.text = some t → t ≠ "" → recvScan e = t) ∧
    (∀ e, (e.text = none ∨ e.text = some "") → recvScan e = jsOrStr e.content "") ∧
    (∀ e t, e.content = some t → t ≠ "" → sendScan e = t) ∧
    (∀ e, (e.content = none ∨ e.content = some "") → sendScan e = jsOrStr e.text "") ∧
    recvScan evBoth ≠ sendScan evBoth ∧
    (∀ d ok e c, (handleEvent d ok e c).decision = .allow ∨
        ∃ m, (handleEvent d ok e c).decision = .block m ∧
          checkKeywords (scanOf d e) c = some m) := by
  refine ⟨?_, ?_, ?_, ?_, by decide, ?_⟩
  · intro e t ht hne
    simp [recvScan, jsOrStr, ht, hne]
  · intro e h
    rcases h with h | h <;> simp [recvScan, jsOrStr, h]
  · intro e t ht hne
    simp [sendScan, jsOrStr, ht, hne]
  · intro e h
    rcases h with h | h <;> simp [sendScan, jsOrStr, h]
  · intro d ok e c
    rcases hookStep_cases d ok e c with ⟨hd, _, _, _⟩ | ⟨m, hd, hck, _, _, _⟩
    · exact Or.inl hd
    · exact Or.inr ⟨m, hd, hck⟩

/-- Witness for C10 at concrete inputs: on the event carrying both fields the
received hook scans the text and the sending hook scans the content. -/
theorem claim_C10_witness :
    recvScan evBoth = "hello" ∧ sendScan evBoth = "spam inside" :=
  ⟨claim_C10_scan_fields.1 evBoth "hello" rfl (by decide),
   claim_C10_scan_fields.2.2.1 evBoth "spam inside" rfl (by decide)⟩
